import Mathlib

/-!
Shallow embedding of `cargo-clean-recursive` (`src/main.rs`) and proofs about it.

The program walks a directory tree (`process_dir`), dispatches one external
`cargo clean` process per directory that directly contains `Cargo.toml`
(`detect_and_clean` / `spawn_cargo_clean`), and afterwards waits on every
spawned process, parsing the first line of its captured stderr to accumulate a
freed-bytes total (`Args::run`).

Modelling choices (each definition is translated from the Rust source):

* A filesystem is a `Node` tree.  A node records its basename, whether
  `path.join("Cargo.toml").is_file()` holds (`cargo`), whether spawning
  `cargo clean` in it would succeed (`spawnOk`), and the outcome of
  `read_dir` (`listing`): either an I/O error or the list of entries.
  An entry's own `status` records what the parent's loop observes for it:
  the `DirEntry` read failed (`readErr`), `file_type()` failed
  (`fileTypeErr`), it is a non-directory (`file`), or it is a directory
  (`dirOk`).  I/O error values are abstracted to their only distinction the
  program makes, `permissionDenied` vs `other` (`ErrorKind`).
* Directories are identified by lists of child indices relative to the
  directory a call processes (the Rust code carries absolute `PathBuf`s and
  composes them per recursion step; composing the index on the way out of
  the recursion is the same bookkeeping).
* `process_dir`'s `&mut Vec<CargoCleanExecution>` out-parameter becomes the
  `dispatches` component of `WalkResult`; errors printed by `eprintln!` at a
  recursion call site become `logs`; the `Result<()>` return value becomes
  `err`.  The recursion depth is the structural fuel, exactly as in the
  source (`depth == 0` returns immediately, children run at `depth - 1`).
* `delete_mode` is threaded through the Rust walk unchanged and only
  determines the argument list of each spawned command; that argument list
  is modelled separately by `cleanArgs`.  The `verbose` flag and the
  cosmetic `Checking ...` announcement are not modelled.
* The collector (`Args::run`'s wait loop) is modelled on captured outcomes:
  `ExecOutcome` is what `wait_with_output()` produced for one execution.
  Text is modelled as `List Char`; `bytesize::ByteSize::from_str` is an
  external crate function and is a parameter `parse : List Char → Option Nat`
  of the collector (the loop only distinguishes `Some(Ok(sz))` from the
  rest).  `str::trim`, `split_once('\n')` and `split_whitespace()` are
  modelled by `trimChars`, `firstLineOf` and `wsTokens`.
-/

/-- The two classes of `std::io::Error` the program distinguishes
(`ErrorKind::PermissionDenied` vs everything else). -/
inductive IoKind where
  | permissionDenied
  | other
deriving DecidableEq, Repr

/-- `enum IoErrorHandling` from the source. -/
inductive IoErrorHandling where
  | ignore
  | raiseUnexpected
  | raiseAll
deriving DecidableEq, Repr

/-- `Result<ControlFlow<(), T>>`: the return type of `handle_io_error`. -/
inductive IoFlow (α : Type) where
  | cont (v : α)
  | brk
  | raise (k : IoKind)

/-- `IoErrorHandlingExt::handle_io_error` from the source:
`Ok(v)` continues; an error is swallowed (`Break`), swallowed only when it is
`PermissionDenied` (`RaiseUnexpected`), or re-raised. -/
def handleIoError {α : Type} : Except IoKind α → IoErrorHandling → IoFlow α
  | Except.ok v, _ => IoFlow.cont v
  | Except.error _, IoErrorHandling.ignore => IoFlow.brk
  | Except.error k, IoErrorHandling.raiseUnexpected =>
    match k with
    | IoKind.permissionDenied => IoFlow.brk
    | IoKind.other => IoFlow.raise IoKind.other
  | Except.error k, IoErrorHandling.raiseAll => IoFlow.raise k

/-- What the parent directory's loop observes for one entry: the `DirEntry`
read failed, `entry.file_type()` failed, the entry is not a directory, or it
is a directory. -/
inductive EntryStatus where
  | readErr (k : IoKind)
  | fileTypeErr (k : IoKind)
  | file
  | dirOk
deriving DecidableEq, Repr

/-- A directory tree as observed by the walker.  Fields are described in the
module docstring; the `status` field is only read by the node's parent. -/
inductive Node where
  | mk (status : EntryStatus) (name : String) (cargo : Bool) (spawnOk : Bool)
      (listing : Except IoKind (List Node))

def Node.status : Node → EntryStatus
  | .mk s _ _ _ _ => s

def Node.name : Node → String
  | .mk _ n _ _ _ => n

def Node.cargo : Node → Bool
  | .mk _ _ c _ _ => c

def Node.spawnOk : Node → Bool
  | .mk _ _ _ s _ => s

def Node.listing : Node → Except IoKind (List Node)
  | .mk _ _ _ _ l => l

/-- The `io::Result<DirEntry>` produced for an entry, recovered from its
status. -/
def entryRead (c : Node) : Except IoKind Node :=
  match c.status with
  | EntryStatus.readErr k => Except.error k
  | _ => Except.ok c

/-- `entry.file_type()` followed by `.is_dir()`, recovered from the entry's
status (the `readErr` case is unreachable: the entry read is checked first). -/
def entryIsDir (c : Node) : Except IoKind Bool :=
  match c.status with
  | EntryStatus.fileTypeErr k => Except.error k
  | EntryStatus.file => Except.ok false
  | EntryStatus.dirOk => Except.ok true
  | EntryStatus.readErr _ => Except.ok false

/-- An error value carried by `anyhow::Result`: which operation failed,
in which directory (address relative to the call's own directory). -/
inductive WalkError where
  | spawnFailed (addr : List Nat)
  | readDir (addr : List Nat) (k : IoKind)
  | readEntry (addr : List Nat) (k : IoKind)
  | fileType (addr : List Nat) (k : IoKind)
deriving DecidableEq, Repr

/-- The directory a walk error is about. -/
def errAddr : WalkError → List Nat
  | .spawnFailed a => a
  | .readDir a _ => a
  | .readEntry a _ => a
  | .fileType a _ => a

/-- Re-root an error one level down child `i` (the Rust code instead carries
absolute paths into the recursion). -/
def WalkError.push (i : Nat) : WalkError → WalkError
  | .spawnFailed a => .spawnFailed (i :: a)
  | .readDir a k => .readDir (i :: a) k
  | .readEntry a k => .readEntry (i :: a) k
  | .fileType a k => .fileType (i :: a) k

/-- Everything one `process_dir` call produces: the executions pushed onto
the shared vector (as directory addresses relative to this call), the errors
it printed with `eprintln!` for failed recursive calls, and its own
`Result<()>` value. -/
structure WalkResult where
  dispatches : List (List Nat)
  logs : List WalkError
  err : Option WalkError
deriving DecidableEq, Repr

/-- The `for entry in rd` loop of `process_dir`.  `f` is the recursive call
at the already-decremented depth, `i` numbers the entries of this directory.
Per entry: the `DirEntry` read is filtered through `handle_io_error`
(`Break` skips the entry, an error aborts the whole call), then
`entry.file_type()?` (a bare `?`: any failure aborts the call), and a
directory entry is recursed into, a failed recursion being caught and
printed (`logs`) while the loop continues. -/
def processChildren (f : Node → WalkResult) (pol : IoErrorHandling) :
    List Node → Nat → WalkResult
  | [], _ => ⟨[], [], none⟩
  | c :: cs, i =>
    match handleIoError (entryRead c) pol with
    | IoFlow.brk => processChildren f pol cs (i + 1)
    | IoFlow.raise k => ⟨[], [], some (WalkError.readEntry [] k)⟩
    | IoFlow.cont c2 =>
      match entryIsDir c2 with
      | Except.error k => ⟨[], [], some (WalkError.fileType [] k)⟩
      | Except.ok false => processChildren f pol cs (i + 1)
      | Except.ok true =>
        let rc := f c2
        let rest := processChildren f pol cs (i + 1)
        ⟨rc.dispatches.map (fun a => i :: a) ++ rest.dispatches,
         (rc.logs ++ rc.err.toList).map (WalkError.push i) ++ rest.logs,
         rest.err⟩

/-- `process_dir` from the source: stop at depth 0; skip a directory whose
basename is in the skip set; `detect_and_clean` (a `Cargo.toml` directory
spawns `cargo clean`, recording the execution, and a spawn failure is
returned as this call's error); `read_dir` filtered through
`handle_io_error`; then the entry loop, with children processed at
`depth - 1`. -/
def processDir (n : Node) (depth : Nat) (skips : List String)
    (pol : IoErrorHandling) : WalkResult :=
  match depth with
  | 0 => ⟨[], [], none⟩
  | Nat.succ d =>
    if skips.contains n.name then ⟨[], [], none⟩
    else if n.cargo && !n.spawnOk then ⟨[], [], some (WalkError.spawnFailed [])⟩
    else
      let disp : List (List Nat) := if n.cargo then [([] : List Nat)] else []
      match handleIoError n.listing pol with
      | IoFlow.brk => ⟨disp, [], none⟩
      | IoFlow.raise k => ⟨disp, [], some (WalkError.readDir [] k)⟩
      | IoFlow.cont cs =>
        let r := processChildren (fun c => processDir c d skips pol) pol cs 0
        ⟨disp ++ r.dispatches, r.logs, r.err⟩

/-- Per-entry half of `errorFreeTo`: an entry list is clean for budget `d`
when no entry read or file-type test fails and every directory entry
satisfies `g` (instantiated with `errorFreeTo d`). -/
def childrenFreeWith (g : Node → Bool) : List Node → Bool
  | [] => true
  | c :: cs =>
    (match c.status with
     | EntryStatus.readErr _ => false
     | EntryStatus.fileTypeErr _ => false
     | EntryStatus.file => true
     | EntryStatus.dirOk => g c) && childrenFreeWith g cs

/-- The walk of this tree down to the given depth budget encounters no
failure: spawning succeeds where attempted, `read_dir` succeeds, and every
entry within the budget is clean.  (Depth 0 touches nothing.) -/
def errorFreeTo : Nat → Node → Bool
  | 0, _ => true
  | Nat.succ d, n =>
    (!n.cargo || n.spawnOk) &&
    (match n.listing with
     | Except.error _ => false
     | Except.ok cs => childrenFreeWith (errorFreeTo d) cs)

/-- The directory reached from `n` by a list of child indices, stepping only
through entries that are directories. -/
def nodeAt : Node → List Nat → Option Node
  | n, [] => some n
  | n, i :: rest =>
    match n.listing with
    | Except.error _ => none
    | Except.ok cs =>
      match cs[i]? with
      | some c => if c.status = EntryStatus.dirOk then nodeAt c rest else none
      | none => none

/-- Eligibility of the directory at an address for dispatch, phrased as a
recursion mirroring the walk: a positive budget at every step, no skipped
basename on the way (endpoints included), and `Cargo.toml` at the endpoint. -/
def eligible (skips : List String) : Nat → Node → List Nat → Bool
  | 0, _, _ => false
  | Nat.succ _, n, [] => !(skips.contains n.name) && n.cargo
  | Nat.succ d, n, i :: rest =>
    !(skips.contains n.name) &&
    (match n.listing with
     | Except.error _ => false
     | Except.ok cs =>
       match cs[i]? with
       | some c =>
         (match c.status with
          | EntryStatus.dirOk => eligible skips d c rest
          | _ => false)
       | none => false)

/-- What `child.wait_with_output()` produced for one spawned execution:
either the wait itself failed, or the process terminated (successfully or
not) with the given captured stderr text. -/
inductive ExecOutcome where
  | waitErr (msg : List Char)
  | finished (success : Bool) (stderrText : List Char)
deriving DecidableEq, Repr

/-- `CargoCleanExecution` at collection time: the path that spawned the
process (as an address) paired with its wait outcome. -/
structure Execution where
  path : List Nat
  outcome : ExecOutcome
deriving DecidableEq, Repr

/-- A line printed with `eprintln!` by the collection loop. -/
inductive Warning where
  | waitFailed (msg : List Char)
  | parseFailed (line : List Char)
deriving DecidableEq, Repr

/-- `str::trim`: drop leading and trailing whitespace. -/
def trimChars (l : List Char) : List Char :=
  ((l.dropWhile Char.isWhitespace).reverse.dropWhile Char.isWhitespace).reverse

/-- `output.trim()` followed by
`split_once('\n').map(|(first_line, _)| first_line).unwrap_or(output)`:
the trimmed text up to (excluding) its first newline. -/
def firstLineOf (text : List Char) : List Char :=
  (trimChars text).takeWhile (fun c => c != '\n')

/-- `str::split_whitespace`: split on whitespace, discarding empty tokens. -/
def wsTokens (l : List Char) : List (List Char) :=
  (l.splitOnP (fun c => c.isWhitespace)).filter (fun t => !t.isEmpty)

/-- The exact first line `"Summary 0 files"` checked in dry-run mode. -/
def summaryZero : List Char := ("Summary 0 files").data

/-- The exact first line `"Removed 0 files"` checked in normal mode. -/
def removedZero : List Char := ("Removed 0 files").data

/-- One iteration of the collection loop of `Args::run`: a failed wait is
logged and contributes nothing; an unsuccessful process is ignored; for a
successful one the first line of its stderr is taken; the mode's exact
zero-pattern short-circuits; otherwise the 4th whitespace token
(`split_whitespace().nth(3)`) is parsed, a missing or unparsable token
producing one warning and nothing else, a parsed size being contributed. -/
def collectStep (dryRun : Bool) (parse : List Char → Option Nat)
    (e : Execution) : Nat × List Warning :=
  match e.outcome with
  | ExecOutcome.waitErr msg => (0, [Warning.waitFailed msg])
  | ExecOutcome.finished success text =>
    if success then
      let output := firstLineOf text
      let alreadyClean : Bool :=
        if dryRun then decide (output = summaryZero)
        else decide (output = removedZero)
      if alreadyClean then (0, [])
      else
        match (wsTokens output)[3]? with
        | none => (0, [Warning.parseFailed output])
        | some tok =>
          match parse tok with
          | some n => (n, [])
          | none => (0, [Warning.parseFailed output])
    else (0, [])

/-- The whole collection loop: total freed bytes and the warnings printed,
in loop order. -/
def collect (dryRun : Bool) (parse : List Char → Option Nat) :
    List Execution → Nat × List Warning
  | [] => (0, [])
  | e :: rest =>
    let s := collectStep dryRun parse e
    let r := collect dryRun parse rest
    (s.1 + r.1, s.2 ++ r.2)

/-- An observable event of the collection phase: one `wait_with_output` on
the execution spawned at a path, or the final total being reported. -/
inductive CollectEvent where
  | waited (path : List Nat)
  | reported (total : Nat)
deriving DecidableEq, Repr

/-- The event trace of the collection loop followed by the summary line:
each iteration waits on its execution once, and after the loop the
accumulated total is reported. -/
def collectTrace (dryRun : Bool) (parse : List Char → Option Nat) :
    List Execution → Nat → List CollectEvent
  | [], acc => [CollectEvent.reported acc]
  | e :: rest, acc =>
    CollectEvent.waited e.path ::
      collectTrace dryRun parse rest (acc + (collectStep dryRun parse e).1)

/-- Modelled from the spec: the successfully parsed size token of a
successfully completed, non-zero-pattern execution, if any (used to compare
the implemented total with the spec's description of it). -/
def specParsedSize (dryRun : Bool) (parse : List Char → Option Nat)
    (e : Execution) : Option Nat :=
  match e.outcome with
  | ExecOutcome.waitErr _ => none
  | ExecOutcome.finished success text =>
    if success then
      let output := firstLineOf text
      if (if dryRun then decide (output = summaryZero)
          else decide (output = removedZero)) then none
      else ((wsTokens output)[3]?).bind parse
    else none

/-- `Args::run` after option handling: walk the tree; a walk error is
returned (`main` then exits non-zero, before any waiting or reporting);
otherwise every recorded execution is resolved via `outcomeOf` and
collected, and the total (with its warnings) is reported. -/
def runModel (root : Node) (depth : Nat) (skips : List String)
    (pol : IoErrorHandling) (dryRun : Bool) (parse : List Char → Option Nat)
    (outcomeOf : List Nat → ExecOutcome) :
    Except WalkError (Nat × List Warning) :=
  let r := processDir root depth skips pol
  match r.err with
  | some e => Except.error e
  | none =>
    Except.ok (collect dryRun parse
      (r.dispatches.map (fun a => Execution.mk a (outcomeOf a))))

/-- The collection-phase event trace of a whole run: a run aborted by a walk
error drops its executions without waiting on any of them and reports
nothing; otherwise the collection loop runs. -/
def runTrace (root : Node) (depth : Nat) (skips : List String)
    (pol : IoErrorHandling) (dryRun : Bool) (parse : List Char → Option Nat)
    (outcomeOf : List Nat → ExecOutcome) : List CollectEvent :=
  let r := processDir root depth skips pol
  match r.err with
  | some _ => []
  | none =>
    collectTrace dryRun parse
      (r.dispatches.map (fun a => Execution.mk a (outcomeOf a))) 0

/-- `struct DeleteMode` from the source. -/
structure DeleteMode where
  doc : Bool
  release : Bool
  dry_run : Bool
deriving DecidableEq, Repr

def DeleteMode.do_doc (m : DeleteMode) : Bool := m.doc

def DeleteMode.do_release (m : DeleteMode) : Bool := m.release

/-- The argument vector built by `detect_and_clean`: `--release` is pushed
if `do_release()`, then `--doc` if `do_doc()`, then `--dry-run` if
`dry_run`. -/
def cleanArgs (m : DeleteMode) : List String :=
  let args : List String := []
  let args := if m.do_release then args ++ ["--release"] else args
  let args := if m.do_doc then args ++ ["--doc"] else args
  let args := if m.dry_run then args ++ ["--dry-run"] else args
  args

-- Concrete fixtures used by witnesses and counterexamples.

/-- A clean one-directory tree whose root is a cargo project. -/
def wOkRoot : Node := Node.mk EntryStatus.dirOk "root" true true (Except.ok [])

/-- A root whose listing succeeds but whose only entry's file-type test
fails with a non-permission error. -/
def wFtErrRoot : Node :=
  Node.mk EntryStatus.dirOk "root" false true
    (Except.ok [Node.mk (EntryStatus.fileTypeErr IoKind.other) "child" false true (Except.ok [])])

/-- A cargo root where spawning `cargo clean` fails. -/
def wSpawnFailRoot : Node :=
  Node.mk EntryStatus.dirOk "root" true false (Except.ok [])

/-- A cargo root (spawn succeeds) whose own `read_dir` fails. -/
def wReadFailRoot : Node :=
  Node.mk EntryStatus.dirOk "root" true true (Except.error IoKind.other)

/-- A concrete first line as printed by `cargo clean`. -/
def wText : List Char := ("Removed 2020 files, 7MiB total").data

/-- A concrete size parser accepting exactly the token `7MiB`. -/
def wParse : List Char → Option Nat :=
  fun t => if t = ("7MiB").data then some 7340032 else none

/-- A concrete outcome table: every execution finished unsuccessfully. -/
def wOutf : List Nat → ExecOutcome :=
  fun _ => ExecOutcome.finished false []

/-- A successfully completed execution reporting `7MiB`. -/
def wExecA : Execution := ⟨[0], ExecOutcome.finished true wText⟩

/-- An unsuccessfully completed execution. -/
def wExecB : Execution := ⟨[1], ExecOutcome.finished false []⟩

-- Helper lemmas about the collector.

/-- The contribution of one execution equals the spec-side parsed size (or
zero when there is none). -/
theorem collectStep_fst_eq (dry : Bool) (parse : List Char → Option Nat)
    (e : Execution) :
    (collectStep dry parse e).1 = (specParsedSize dry parse e).getD 0 := by
  rcases e with ⟨p, o⟩
  rcases o with msg | ⟨succ, text⟩
  · simp [collectStep, specParsedSize]
  · cases succ
    · simp [collectStep, specParsedSize]
    · cases hC : (if dry then decide (firstLineOf text = summaryZero)
          else decide (firstLineOf text = removedZero))
      · cases hT : (wsTokens (firstLineOf text))[3]? with
        | none => simp [collectStep, specParsedSize, hC, hT]
        | some tok =>
          cases hP : parse tok <;> simp [collectStep, specParsedSize, hC, hT, hP]
      · simp [collectStep, specParsedSize, hC]

/-- The loop total is the sum of the per-execution contributions. -/
theorem collect_total_eq (dry : Bool) (parse : List Char → Option Nat) :
    ∀ l : List Execution,
      (collect dry parse l).1 = (l.map (fun e => (collectStep dry parse e).1)).sum := by
  intro l
  induction l with
  | nil => simp [collect]
  | cons e rest ih => simp [collect, ih]

/-- The loop total is the sum of the spec-side parsed sizes. -/
theorem collect_total_filterMap (dry : Bool) (parse : List Char → Option Nat) :
    ∀ l : List Execution,
      (collect dry parse l).1 = (l.filterMap (specParsedSize dry parse)).sum := by
  intro l
  induction l with
  | nil => simp [collect]
  | cons e rest ih =>
    rcases hspec : specParsedSize dry parse e with _ | n <;>
      simp [collect, List.filterMap_cons, hspec, ih, collectStep_fst_eq dry parse e]

/-- The collection trace is: one wait per execution, in order, then the
report of the accumulated total. -/
theorem collectTrace_eq (dry : Bool) (parse : List Char → Option Nat) :
    ∀ (l : List Execution) (acc : Nat),
      collectTrace dry parse l acc
        = l.map (fun e => CollectEvent.waited e.path)
          ++ [CollectEvent.reported (acc + (collect dry parse l).1)] := by
  intro l
  induction l with
  | nil => intro acc; simp [collectTrace, collect]
  | cons e rest ih => intro acc; simp [collectTrace, collect, ih, Nat.add_assoc]

-- Helper lemmas about the walker's error propagation.

/-- Pushing an error down an index prepends the index to its address. -/
theorem errAddr_push (i : Nat) (e : WalkError) :
    errAddr (WalkError.push i e) = i :: errAddr e := by
  cases e <;> rfl

/-- An error returned (not merely logged) by the entry loop is about the
loop's own directory: its relative address is `[]`. -/
theorem processChildren_err_addr (f : Node → WalkResult) (pol : IoErrorHandling) :
    ∀ (cs : List Node) (i : Nat) (e : WalkError),
      (processChildren f pol cs i).err = some e → errAddr e = [] := by
  intro cs
  induction cs with
  | nil => intro i e h; simp [processChildren] at h
  | cons c cs ih =>
    intro i e h
    rcases hh : handleIoError (entryRead c) pol with c2 | _ | k
    · rcases hv : entryIsDir c2 with k | b
      · simp only [processChildren, hh, hv] at h
        simp at h
        rw [← h]
        rfl
      · rcases b
        · simp only [processChildren, hh, hv] at h
          exact ih (i + 1) e h
        · simp only [processChildren, hh, hv] at h
          exact ih (i + 1) e h
    · simp only [processChildren, hh] at h
      exact ih (i + 1) e h
    · simp only [processChildren, hh] at h
      simp at h
      rw [← h]
      rfl

/-- An error returned by a `process_dir` call is about the call's own
directory: its relative address is `[]`. -/
theorem processDir_err_addr (n : Node) (depth : Nat) (skips : List String)
    (pol : IoErrorHandling) :
    ∀ e, (processDir n depth skips pol).err = some e → errAddr e = [] := by
  intro e h
  cases depth with
  | zero => simp [processDir] at h
  | succ d =>
    rcases hskip : skips.contains n.name
    · rcases hsp : (n.cargo && !n.spawnOk)
      · rcases hh : handleIoError n.listing pol with cs | _ | k
        · simp only [processDir, hskip, hsp, hh, Bool.false_eq_true, if_false] at h
          exact processChildren_err_addr _ pol cs 0 e h
        · simp only [processDir, hskip, hsp, hh, Bool.false_eq_true, if_false] at h
          simp at h
        · simp only [processDir, hskip, hsp, hh, Bool.false_eq_true, if_false] at h
          simp at h
          rw [← h]
          rfl
      · simp only [processDir, hskip, hsp, Bool.false_eq_true, if_false, if_true] at h
        simp at h
        rw [← h]
        rfl
    · simp only [processDir, hskip, if_true] at h
      simp at h

/-- Every error logged (rather than returned) by the entry loop comes from a
strictly deeper directory: its relative address is nonempty. -/
theorem processChildren_logs_addr (f : Node → WalkResult) (pol : IoErrorHandling) :
    ∀ (cs : List Node) (i : Nat) (e : WalkError),
      e ∈ (processChildren f pol cs i).logs → errAddr e ≠ [] := by
  intro cs
  induction cs with
  | nil => intro i e h; simp [processChildren] at h
  | cons c cs ih =>
    intro i e h
    rcases hh : handleIoError (entryRead c) pol with c2 | _ | k
    · rcases hv : entryIsDir c2 with k | b
      · simp only [processChildren, hh, hv] at h
        simp at h
      · rcases b
        · simp only [processChildren, hh, hv] at h
          exact ih (i + 1) e h
        · simp only [processChildren, hh, hv] at h
          simp only [List.mem_append, List.mem_map] at h
          rcases h with ⟨e', _, he⟩ | h
          · rw [← he, errAddr_push]
            simp
          · exact ih (i + 1) e h
    · simp only [processChildren, hh] at h
      exact ih (i + 1) e h
    · simp only [processChildren, hh] at h
      simp at h

/-- Every error a `process_dir` call logs comes from a strictly deeper
directory. -/
theorem processDir_logs_addr (n : Node) (depth : Nat) (skips : List String)
    (pol : IoErrorHandling) :
    ∀ e, e ∈ (processDir n depth skips pol).logs → errAddr e ≠ [] := by
  intro e h
  cases depth with
  | zero => simp [processDir] at h
  | succ d =>
    rcases hskip : skips.contains n.name
    · rcases hsp : (n.cargo && !n.spawnOk)
      · rcases hh : handleIoError n.listing pol with cs | _ | k
        · simp only [processDir, hskip, hsp, hh, Bool.false_eq_true, if_false] at h
          exact processChildren_logs_addr _ pol cs 0 e h
        · simp only [processDir, hskip, hsp, hh, Bool.false_eq_true, if_false] at h
          simp at h
        · simp only [processDir, hskip, hsp, hh, Bool.false_eq_true, if_false] at h
          simp at h
      · simp only [processDir, hskip, hsp, Bool.false_eq_true, if_false, if_true] at h
        simp at h
    · simp only [processDir, hskip, if_true] at h
      simp at h

-- Membership characterization of the walker's dispatch list.

/-- On an error-free entry list, an address is dispatched by the entry loop
iff it points through some directory entry `j` (numbered from `i`) into an
address its recursive walk dispatches.  `f` abstracts the recursive call and
`E` its dispatch characterization on `g`-clean nodes. -/
theorem mem_processChildren_iff (f : Node → WalkResult) (E : Node → List Nat → Bool)
    (g : Node → Bool)
    (hf : ∀ c y, g c = true → (y ∈ (f c).dispatches ↔ E c y = true)) :
    ∀ (cs : List Node) (pol : IoErrorHandling) (i : Nat) (x : List Nat),
      childrenFreeWith g cs = true →
      (x ∈ (processChildren f pol cs i).dispatches ↔
        ∃ j c rest, cs[j]? = some c ∧ c.status = EntryStatus.dirOk ∧
          x = (i + j) :: rest ∧ E c rest = true) := by
  intro cs
  induction cs with
  | nil =>
    intro pol i x _
    constructor
    · intro h; simp [processChildren] at h
    · rintro ⟨j, c, rest, hj, -, -, -⟩; simp at hj
  | cons c cs ih =>
    intro pol i x hfree
    rw [childrenFreeWith, Bool.and_eq_true] at hfree
    obtain ⟨hc1, hc2⟩ := hfree
    rcases hst : c.status with k | k | _ | _
    · rw [hst] at hc1; simp at hc1
    · rw [hst] at hc1; simp at hc1
    · have hred : processChildren f pol (c :: cs) i = processChildren f pol cs (i + 1) := by
        simp [processChildren, entryRead, entryIsDir, hst, handleIoError]
      rw [hred, ih pol (i + 1) x hc2]
      constructor
      · rintro ⟨j, c', rest, hj, hstc, hx, hE⟩
        refine ⟨j + 1, c', rest, by simpa using hj, hstc, ?_, hE⟩
        rw [hx]
        congr 1
        omega
      · rintro ⟨j, c', rest, hj, hstc, hx, hE⟩
        cases j with
        | zero =>
          simp at hj
          subst hj
          rw [hst] at hstc
          simp at hstc
        | succ j =>
          refine ⟨j, c', rest, by simpa using hj, hstc, ?_, hE⟩
          rw [hx]
          congr 1
          omega
    · have hgc : g c = true := by rw [hst] at hc1; exact hc1
      have hred : processChildren f pol (c :: cs) i
          = ⟨(f c).dispatches.map (fun a => i :: a)
              ++ (processChildren f pol cs (i + 1)).dispatches,
             ((f c).logs ++ (f c).err.toList).map (WalkError.push i)
              ++ (processChildren f pol cs (i + 1)).logs,
             (processChildren f pol cs (i + 1)).err⟩ := by
        simp [processChildren, entryRead, entryIsDir, hst, handleIoError]
      rw [hred]
      simp only [List.mem_append, List.mem_map]
      constructor
      · rintro (⟨y, hy, hxy⟩ | hmem)
        · exact ⟨0, c, y, by simp, hst, by simp [← hxy], (hf c y hgc).mp hy⟩
        · obtain ⟨j, c', rest, hj, hstc, hx, hE⟩ := (ih pol (i + 1) x hc2).mp hmem
          refine ⟨j + 1, c', rest, by simpa using hj, hstc, ?_, hE⟩
          rw [hx]
          congr 1
          omega
      · rintro ⟨j, c', rest, hj, hstc, hx, hE⟩
        cases j with
        | zero =>
          left
          simp at hj
          subst hj
          exact ⟨rest, (hf c rest hgc).mpr hE, by rw [hx]; simp⟩
        | succ j =>
          right
          refine (ih pol (i + 1) x hc2).mpr ⟨j, c', rest, by simpa using hj, hstc, ?_, hE⟩
          rw [hx]
          congr 1
          omega

/-- On a tree whose walk to the given depth is error-free, an address is in
the dispatch list of `process_dir` iff it is `eligible`. -/
theorem mem_processDir_iff :
    ∀ (depth : Nat) (n : Node) (skips : List String) (pol : IoErrorHandling) (x : List Nat),
      errorFreeTo depth n = true →
      (x ∈ (processDir n depth skips pol).dispatches ↔ eligible skips depth n x = true) := by
  intro depth
  induction depth with
  | zero =>
    intro n skips pol x _
    constructor
    · intro h; simp [processDir] at h
    · intro h; simp [eligible] at h
  | succ d ih =>
    intro n skips pol x hfree
    obtain ⟨st, nm, cargo, sp, listing⟩ := n
    rw [errorFreeTo, Bool.and_eq_true] at hfree
    obtain ⟨hsp, hlist⟩ := hfree
    simp only [Node.cargo, Node.spawnOk, Node.listing] at hsp hlist
    cases listing with
    | error k => simp at hlist
    | ok cs =>
      by_cases hmem : nm ∈ skips
      · have hred : processDir (Node.mk st nm cargo sp (Except.ok cs)) (d + 1) skips pol
            = ⟨[], [], none⟩ := by
          simp [processDir, Node.name, hmem]
        rw [hred]
        cases x <;> simp [eligible, Node.name, hmem]
      · have hsp2 : ¬(cargo = true ∧ sp = false) := by
          cases cargo <;> cases sp <;> simp_all
        have hred : processDir (Node.mk st nm cargo sp (Except.ok cs)) (d + 1) skips pol
            = ⟨(if cargo then [([] : List Nat)] else [])
                ++ (processChildren (fun c => processDir c d skips pol) pol cs 0).dispatches,
               (processChildren (fun c => processDir c d skips pol) pol cs 0).logs,
               (processChildren (fun c => processDir c d skips pol) pol cs 0).err⟩ := by
          simp [processDir, Node.name, Node.cargo, Node.spawnOk, Node.listing, hmem, hsp2,
            handleIoError]
        rw [hred]
        have hch := mem_processChildren_iff (fun c => processDir c d skips pol)
          (eligible skips d) (errorFreeTo d)
          (fun c y hc => ih c skips pol y hc) cs pol 0 x hlist
        cases x with
        | nil =>
          simp only [eligible, Node.name, Node.cargo]
          constructor
          · intro h
            rcases List.mem_append.mp h with h | h
            · cases hc : cargo
              · rw [hc] at h; simp at h
              · simp [hmem, hc]
            · obtain ⟨j, c', rest, -, -, hx, -⟩ := hch.mp h
              exact absurd hx (by simp)
          · intro h
            rw [Bool.and_eq_true] at h
            apply List.mem_append.mpr
            left
            simp [h.2]
        | cons i rest =>
          simp only [eligible, Node.name, Node.listing]
          constructor
          · intro h
            rcases List.mem_append.mp h with h | h
            · cases hc : cargo
              · rw [hc] at h; simp at h
              · rw [hc] at h; simp at h
            · obtain ⟨j, c', rest', hj, hstc, hx, hE⟩ := hch.mp h
              rw [Nat.zero_add] at hx
              injection hx with h1 h2
              subst h1
              subst h2
              rw [Bool.and_eq_true]
              refine ⟨by simp [hmem], ?_⟩
              simp only [hj, hstc]
              exact hE
          · intro h
            rw [Bool.and_eq_true] at h
            obtain ⟨-, h2⟩ := h
            rcases hg : cs[i]? with _ | c'
            · simp only [hg] at h2
              simp at h2
            · simp only [hg] at h2
              rcases hstc : c'.status with k | k | _ | _
              · simp only [hstc] at h2; simp at h2
              · simp only [hstc] at h2; simp at h2
              · simp only [hstc] at h2; simp at h2
              · simp only [hstc] at h2
                apply List.mem_append.mpr
                right
                exact hch.mpr ⟨i, c', rest, hg, hstc, by simp, h2⟩

/-- `eligible` says exactly what the specification says: the addressed
directory exists and holds the marker, no directory on the path from the
scan root to it (both included) has a skipped basename, and the remaining
depth budget there is at least one. -/
theorem eligible_iff :
    ∀ (x : List Nat) (n : Node) (skips : List String) (depth : Nat),
      eligible skips depth n x = true ↔
        ((∃ t, nodeAt n x = some t ∧ t.cargo = true) ∧
         (∀ k u, nodeAt n (x.take k) = some u → u.name ∉ skips) ∧
         x.length < depth) := by
  intro x
  induction x with
  | nil =>
    intro n skips depth
    cases depth with
    | zero => simp [eligible]
    | succ d =>
      simp only [eligible]
      constructor
      · intro h
        rw [Bool.and_eq_true] at h
        obtain ⟨h1, h2⟩ := h
        refine ⟨⟨n, rfl, h2⟩, ?_, Nat.succ_pos d⟩
        intro k u hu
        simp only [List.take_nil, nodeAt] at hu
        injection hu with hu
        rw [← hu]
        simpa using h1
      · rintro ⟨⟨t, ht, hc⟩, hpre, -⟩
        rw [Bool.and_eq_true]
        simp only [nodeAt] at ht
        injection ht with ht
        constructor
        · have h0 := hpre 0 n rfl
          simpa using h0
        · rw [ht]
          exact hc
  | cons i rest ih =>
    intro n skips depth
    cases depth with
    | zero => simp [eligible]
    | succ d =>
      obtain ⟨st, nm, cargo, sp, listing⟩ := n
      cases listing with
      | error k =>
        have hElig : eligible skips (d + 1) (Node.mk st nm cargo sp (Except.error k)) (i :: rest)
            = (!(skips.contains nm) && false) := by
          simp [eligible, Node.name, Node.listing]
        have hNode : nodeAt (Node.mk st nm cargo sp (Except.error k)) (i :: rest) = none := by
          simp [nodeAt, Node.listing]
        simp [hElig, hNode]
      | ok cs =>
        rcases hg : cs[i]? with _ | c
        · have hElig : eligible skips (d + 1) (Node.mk st nm cargo sp (Except.ok cs)) (i :: rest)
              = (!(skips.contains nm) && false) := by
            simp [eligible, Node.name, Node.listing, hg]
          have hNode : nodeAt (Node.mk st nm cargo sp (Except.ok cs)) (i :: rest) = none := by
            simp [nodeAt, Node.listing, hg]
          simp [hElig, hNode]
        · rcases hstc : c.status with k | k | _ | _
          case readErr =>
            have hElig : eligible skips (d + 1) (Node.mk st nm cargo sp (Except.ok cs)) (i :: rest)
                = (!(skips.contains nm) && false) := by
              simp [eligible, Node.name, Node.listing, hg, hstc]
            have hNode : nodeAt (Node.mk st nm cargo sp (Except.ok cs)) (i :: rest) = none := by
              simp [nodeAt, Node.listing, hg, hstc]
            simp [hElig, hNode]
          case fileTypeErr =>
            have hElig : eligible skips (d + 1) (Node.mk st nm cargo sp (Except.ok cs)) (i :: rest)
                = (!(skips.contains nm) && false) := by
              simp [eligible, Node.name, Node.listing, hg, hstc]
            have hNode : nodeAt (Node.mk st nm cargo sp (Except.ok cs)) (i :: rest) = none := by
              simp [nodeAt, Node.listing, hg, hstc]
            simp [hElig, hNode]
          case file =>
            have hElig : eligible skips (d + 1) (Node.mk st nm cargo sp (Except.ok cs)) (i :: rest)
                = (!(skips.contains nm) && false) := by
              simp [eligible, Node.name, Node.listing, hg, hstc]
            have hNode : nodeAt (Node.mk st nm cargo sp (Except.ok cs)) (i :: rest) = none := by
              simp [nodeAt, Node.listing, hg, hstc]
            simp [hElig, hNode]
          case dirOk =>
            have hElig : eligible skips (d + 1) (Node.mk st nm cargo sp (Except.ok cs)) (i :: rest)
                = (!(skips.contains nm) && eligible skips d c rest) := by
              simp [eligible, Node.name, Node.listing, hg, hstc]
            have hnode : nodeAt (Node.mk st nm cargo sp (Except.ok cs)) (i :: rest)
                = nodeAt c rest := by
              simp [nodeAt, Node.listing, hg, hstc]
            have htakeN : ∀ k,
                nodeAt (Node.mk st nm cargo sp (Except.ok cs)) ((i :: rest).take (k + 1))
                  = nodeAt c (rest.take k) := by
              intro k
              simp [nodeAt, Node.listing, hg, hstc, List.take_succ_cons]
            rw [hElig]
            constructor
            · intro h
              rw [Bool.and_eq_true] at h
              obtain ⟨h1, h2⟩ := h
              obtain ⟨⟨t, ht, hc⟩, hpre, hlen⟩ := (ih c skips d).mp h2
              refine ⟨⟨t, by rw [hnode]; exact ht, hc⟩, ?_,
                by simp only [List.length_cons]; omega⟩
              intro k u hu
              cases k with
              | zero =>
                simp only [List.take_zero, nodeAt] at hu
                injection hu with hu
                rw [← hu]
                simpa [Node.name] using h1
              | succ k =>
                rw [htakeN k] at hu
                exact hpre k u hu
            · rintro ⟨⟨t, ht, hc⟩, hpre, hlen⟩
              rw [Bool.and_eq_true]
              constructor
              · have h0 := hpre 0 (Node.mk st nm cargo sp (Except.ok cs)) rfl
                simpa [Node.name] using h0
              · apply (ih c skips d).mpr
                refine ⟨⟨t, ?_, hc⟩, ?_, ?_⟩
                · rw [hnode] at ht; exact ht
                · intro k u hu
                  exact hpre (k + 1) u (by rw [htakeN k]; exact hu)
                · simp only [List.length_cons] at hlen; omega

-- Claim theorems.

/-- C1: for every directory tree traversed without I/O errors (down to the
depth budget), the walk dispatches a cleanup for address `addr` iff the
directory there directly contains `Cargo.toml`, no directory on the path
from the scan root to it (the scan root's own basename included) is in the
skip set, and the remaining depth budget there is at least 1
(`addr.length < depth`). -/
theorem cargo_dir_dispatched_iff
    (root : Node) (depth : Nat) (skips : List String) (pol : IoErrorHandling)
    (addr : List Nat) (hfree : errorFreeTo depth root = true) :
    addr ∈ (processDir root depth skips pol).dispatches ↔
      ((∃ t, nodeAt root addr = some t ∧ t.cargo = true) ∧
       (∀ k u, nodeAt root (addr.take k) = some u → u.name ∉ skips) ∧
       addr.length < depth) :=
  (mem_processDir_iff depth root skips pol addr hfree).trans
    (eligible_iff addr root skips depth)

/-- C1 witness: on a concrete error-free tree the equivalence applies and
yields the root dispatch. -/
theorem cargo_dir_dispatched_iff_witness :
    errorFreeTo 1 wOkRoot = true ∧
    [] ∈ (processDir wOkRoot 1 [] IoErrorHandling.ignore).dispatches :=
  ⟨by decide,
   (cargo_dir_dispatched_iff wOkRoot 1 [] IoErrorHandling.ignore [] (by decide)).mpr
     ⟨⟨wOkRoot, rfl, rfl⟩,
      by
        intro k u hu
        simp only [List.take_nil, nodeAt] at hu
        injection hu with hu
        rw [← hu]
        simp,
      by decide⟩⟩

/-- C2: for a successfully completed execution whose first line is neither
zero-pattern, the 4th whitespace token of that line is parsed: if the token
is absent or unparsable, the execution contributes `(0, one warning)`;
if it parses as `n`, it contributes `(n, no warning)`; and the loop equation
shows the rest of the executions are aggregated regardless. -/
theorem size_token_parse_contribution
    (dry : Bool) (parse : List Char → Option Nat) (p : List Nat)
    (text : List Char) (rest : List Execution)
    (hs : firstLineOf text ≠ summaryZero) (hr : firstLineOf text ≠ removedZero) :
    ((wsTokens (firstLineOf text))[3]? = none →
      collectStep dry parse ⟨p, ExecOutcome.finished true text⟩
        = (0, [Warning.parseFailed (firstLineOf text)])) ∧
    (∀ tok, (wsTokens (firstLineOf text))[3]? = some tok →
      (parse tok = none →
        collectStep dry parse ⟨p, ExecOutcome.finished true text⟩
          = (0, [Warning.parseFailed (firstLineOf text)])) ∧
      (∀ n, parse tok = some n →
        collectStep dry parse ⟨p, ExecOutcome.finished true text⟩ = (n, []))) ∧
    (collect dry parse (⟨p, ExecOutcome.finished true text⟩ :: rest)
      = ((collectStep dry parse ⟨p, ExecOutcome.finished true text⟩).1
           + (collect dry parse rest).1,
         (collectStep dry parse ⟨p, ExecOutcome.finished true text⟩).2
           ++ (collect dry parse rest).2)) := by
  have hc : (if dry then decide (firstLineOf text = summaryZero)
      else decide (firstLineOf text = removedZero)) = false := by
    cases dry <;> simp [hs, hr]
  refine ⟨?_, ?_, rfl⟩
  · intro hT
    simp [collectStep, hc, hT]
  · intro tok hT
    constructor
    · intro hP
      simp [collectStep, hc, hT, hP]
    · intro n hP
      simp [collectStep, hc, hT, hP]

/-- C2 witness: a concrete line whose 4th token parses contributes exactly
its size. -/
theorem size_token_parse_contribution_witness :
    collectStep false wParse ⟨[], ExecOutcome.finished true wText⟩ = (7340032, []) :=
  ((size_token_parse_contribution false wParse [] wText []
      (by decide) (by decide)).2.1 (String.data "7MiB") (by decide)).2 7340032 (by decide)

/-- C3: the claim is violated by the code.  Under the `ignore` policy a
failing `file_type()` test is NOT swallowed: `entry.file_type()?` bypasses
`handle_io_error` (first conjunct shows the policy would ask to skip it),
so the walk of the directory aborts with that error, and when the directory
is the scan root the whole run aborts. -/
theorem file_type_error_surfaced_under_ignore :
    handleIoError (Except.error IoKind.other : Except IoKind Bool) IoErrorHandling.ignore
      = IoFlow.brk ∧
    processDir wFtErrRoot 1 [] IoErrorHandling.ignore
      = ⟨[], [], some (WalkError.fileType [] IoKind.other)⟩ ∧
    runModel wFtErrRoot 1 [] IoErrorHandling.ignore false wParse wOutf
      = Except.error (WalkError.fileType [] IoKind.other) :=
  ⟨rfl, rfl, rfl⟩

/-- C4 counterexample: a spawn failure at the scan root itself — not a
failure to read the scan root — terminates the whole run with an error,
before any total is reported. -/
theorem spawn_failure_at_root_terminates_run :
    runModel wSpawnFailRoot 1 [] IoErrorHandling.ignore false wParse wOutf
      = Except.error (WalkError.spawnFailed []) ∧
    runTrace wSpawnFailRoot 1 [] IoErrorHandling.ignore false wParse wOutf = [] :=
  ⟨rfl, rfl⟩

/-- C4 (amended): the failures that terminate the run are exactly those the
walker's root-level call returns, and such an error is always about the scan
root itself (relative address `[]`): a fatal-classified failure listing the
root or reading one of its entries, a file-type test failure on a root
entry, or a spawn failure at the root.  When the root call returns no error
the run reports its collected total, and every logged (contained) failure
comes from a strictly deeper directory. -/
theorem run_terminates_only_on_root_level_failures
    (root : Node) (depth : Nat) (skips : List String) (pol : IoErrorHandling)
    (dry : Bool) (parse : List Char → Option Nat) (outf : List Nat → ExecOutcome) :
    (∀ e, runModel root depth skips pol dry parse outf = Except.error e →
      (processDir root depth skips pol).err = some e ∧ errAddr e = []) ∧
    ((processDir root depth skips pol).err = none →
      runModel root depth skips pol dry parse outf
        = Except.ok (collect dry parse
            ((processDir root depth skips pol).dispatches.map
              (fun a => Execution.mk a (outf a))))) ∧
    (∀ e, e ∈ (processDir root depth skips pol).logs → errAddr e ≠ []) := by
  refine ⟨?_, ?_, ?_⟩
  · intro e h
    rw [runModel] at h
    cases herr : (processDir root depth skips pol).err with
    | none => rw [herr] at h; simp at h
    | some e0 =>
      rw [herr] at h
      simp at h
      subst h
      exact ⟨rfl, processDir_err_addr root depth skips pol _ herr⟩
  · intro h
    rw [runModel, h]
  · exact processDir_logs_addr root depth skips pol

/-- C4 witness: the amended theorem applied to the spawn-failure tree. -/
theorem run_terminates_only_on_root_level_failures_witness :
    (processDir wSpawnFailRoot 1 [] IoErrorHandling.ignore).err
      = some (WalkError.spawnFailed []) ∧
    errAddr (WalkError.spawnFailed []) = [] :=
  (run_terminates_only_on_root_level_failures wSpawnFailRoot 1 []
      IoErrorHandling.ignore false wParse wOutf).1 (WalkError.spawnFailed []) rfl

/-- C5: a successful execution whose first line is the mode's exact
zero-pattern contributes zero, emits no warning, and no size-token parse is
attempted (the result does not depend on the parser at all). -/
theorem zero_pattern_contributes_nothing
    (dry : Bool) (parse parse2 : List Char → Option Nat) (p : List Nat) (text : List Char)
    (h : firstLineOf text = (if dry then summaryZero else removedZero)) :
    collectStep dry parse ⟨p, ExecOutcome.finished true text⟩ = (0, []) ∧
    collectStep dry parse ⟨p, ExecOutcome.finished true text⟩
      = collectStep dry parse2 ⟨p, ExecOutcome.finished true text⟩ := by
  have hc : (if dry then decide (firstLineOf text = summaryZero)
      else decide (firstLineOf text = removedZero)) = true := by
    cases dry <;> simp_all
  constructor <;> simp [collectStep, hc]

/-- C5 witness: the dry-run pattern `Summary 0 files` under two different
parsers. -/
theorem zero_pattern_contributes_nothing_witness :
    collectStep true (fun _ => some 5)
        ⟨[], ExecOutcome.finished true (String.data "Summary 0 files")⟩ = (0, []) ∧
    collectStep true (fun _ => some 5)
        ⟨[], ExecOutcome.finished true (String.data "Summary 0 files")⟩
      = collectStep true (fun _ => none)
          ⟨[], ExecOutcome.finished true (String.data "Summary 0 files")⟩ :=
  zero_pattern_contributes_nothing true (fun _ => some 5) (fun _ => none) []
    (String.data "Summary 0 files") (by decide)

/-- C6: an execution whose process terminated unsuccessfully contributes
zero, produces no warning, and the loop simply continues with the rest and
still reaches its report event. -/
theorem unsuccessful_execution_ignored
    (dry : Bool) (parse : List Char → Option Nat) (p : List Nat) (text : List Char)
    (rest : List Execution) (acc : Nat) :
    collectStep dry parse ⟨p, ExecOutcome.finished false text⟩ = (0, []) ∧
    collect dry parse (⟨p, ExecOutcome.finished false text⟩ :: rest)
      = collect dry parse rest ∧
    collectTrace dry parse (⟨p, ExecOutcome.finished false text⟩ :: rest) acc
      = CollectEvent.waited p :: collectTrace dry parse rest acc := by
  refine ⟨rfl, ?_, ?_⟩
  · simp [collect, collectStep, Prod.mk.eta]
  · simp [collectTrace, collectStep]

/-- C7: the dispatcher's argument list has the release flag iff `release`,
the docs flag iff `doc`, the dry-run flag iff `dry_run`, and the three
appear in exactly that order. -/
theorem clean_args_flags (m : DeleteMode) :
    ("--release" ∈ cleanArgs m ↔ m.release = true) ∧
    ("--doc" ∈ cleanArgs m ↔ m.doc = true) ∧
    ("--dry-run" ∈ cleanArgs m ↔ m.dry_run = true) ∧
    cleanArgs m = (if m.release then ["--release"] else [])
      ++ (if m.doc then ["--doc"] else [])
      ++ (if m.dry_run then ["--dry-run"] else []) := by
  obtain ⟨d, r, n⟩ := m
  cases d <;> cases r <;> cases n <;> decide

/-- C8: the aggregated total is the sum of the successfully parsed size
tokens over the successfully completed, non-zero-pattern executions, and it
is invariant under permutation of the collection order. -/
theorem total_is_sum_of_parsed_sizes_perm_invariant
    (dry : Bool) (parse : List Char → Option Nat) (l l2 : List Execution)
    (hperm : l.Perm l2) :
    (collect dry parse l).1 = (l.filterMap (specParsedSize dry parse)).sum ∧
    (collect dry parse l).1 = (collect dry parse l2).1 := by
  constructor
  · exact collect_total_filterMap dry parse l
  · rw [collect_total_eq dry parse l, collect_total_eq dry parse l2]
    exact (hperm.map _).sum_eq

/-- C8 witness: a two-execution list and its transposition. -/
theorem total_is_sum_of_parsed_sizes_perm_invariant_witness :
    List.Perm [wExecB, wExecA] [wExecA, wExecB] ∧
    ((collect false wParse [wExecB, wExecA]).1
        = ([wExecB, wExecA].filterMap (specParsedSize false wParse)).sum ∧
      (collect false wParse [wExecB, wExecA]).1
        = (collect false wParse [wExecA, wExecB]).1) :=
  ⟨List.Perm.swap wExecA wExecB [],
   total_is_sum_of_parsed_sizes_perm_invariant false wParse [wExecB, wExecA]
     [wExecA, wExecB] (List.Perm.swap wExecA wExecB [])⟩

/-- C9 counterexample: when the root walk fails fatally after a dispatch,
the run aborts: the execution spawned at the root is dropped without any
wait event and no total is reported. -/
theorem execution_dropped_on_fatal_walk_error :
    (processDir wReadFailRoot 1 [] IoErrorHandling.raiseAll).dispatches = [[]] ∧
    runTrace wReadFailRoot 1 [] IoErrorHandling.raiseAll false wParse wOutf = [] :=
  ⟨rfl, rfl⟩

/-- C9 (amended): whenever the walk's root call returns without a fatal
error, the collection trace waits exactly once, in order, on every execution
created during the walk, and only then reports the final total. -/
theorem executions_waited_once_when_walk_succeeds
    (root : Node) (depth : Nat) (skips : List String) (pol : IoErrorHandling)
    (dry : Bool) (parse : List Char → Option Nat) (outf : List Nat → ExecOutcome)
    (h : (processDir root depth skips pol).err = none) :
    runTrace root depth skips pol dry parse outf
      = (processDir root depth skips pol).dispatches.map
          (fun a => CollectEvent.waited a)
        ++ [CollectEvent.reported
              (collect dry parse
                ((processDir root depth skips pol).dispatches.map
                  (fun a => Execution.mk a (outf a)))).1] := by
  rw [runTrace, h, collectTrace_eq]
  simp [List.map_map, Function.comp]

/-- C9 witness: on a clean one-project tree, the trace is one wait followed
by the report. -/
theorem executions_waited_once_when_walk_succeeds_witness :
    runTrace wOkRoot 1 [] IoErrorHandling.ignore false wParse wOutf
      = [CollectEvent.waited [], CollectEvent.reported 0] :=
  (executions_waited_once_when_walk_succeeds wOkRoot 1 [] IoErrorHandling.ignore
      false wParse wOutf rfl).trans (by decide)

/-- C10: with depth 0 the walker returns before looking at anything — for
every root node, including ones whose listing fails or whose spawn would
fail, nothing is dispatched, no error or log is produced, and the run
reports total 0 with no warnings and exits successfully. -/
theorem depth_zero_no_dispatch_no_access
    (n : Node) (skips : List String) (pol : IoErrorHandling) (dry : Bool)
    (parse : List Char → Option Nat) (outf : List Nat → ExecOutcome) :
    processDir n 0 skips pol = ⟨[], [], none⟩ ∧
    runModel n 0 skips pol dry parse outf = Except.ok (0, []) ∧
    runTrace n 0 skips pol dry parse outf = [CollectEvent.reported 0] :=
  ⟨rfl, rfl, rfl⟩
